import Mathlib

/-!
Verification of the gather-subset resolution algorithm and fact pipeline of the
`iosxr_facts` / `junos_facts` Ansible modules, and of the `decode_os` function of
`parse_snmp_sysdescr.py`, from repository NTNU-IDI-Bachelor-2017-29E.

The subset resolver (function `main` of both modules) is embedded as a pure
function over `Finset String`, mirroring the Python `set` operations line by
line.  The fact-gathering loop that follows resolution is embedded with the
extractor layer abstracted (as the specification directs): each catalog entry is
an opaque `commands`/`populate` pair supplied by an environment parameter.
`decode_os` is embedded over `Except`, with Python `IndexError` (list indexing)
and `KeyError` (dict indexing) kept distinct.
-/

set_option maxRecDepth 4000

namespace S2P

instance {ε α : Type} [DecidableEq ε] [DecidableEq α] : DecidableEq (Except ε α) :=
  fun x y =>
  match x, y with
  | .ok a, .ok b =>
    if h : a = b then .isTrue (by rw [h])
    else .isFalse (fun hh => h (Except.ok.inj hh))
  | .error a, .error b =>
    if h : a = b then .isTrue (by rw [h])
    else .isFalse (fun hh => h (Except.error.inj hh))
  | .ok _, .error _ => .isFalse (fun hh => Except.noConfusion hh)
  | .error _, .ok _ => .isFalse (fun hh => Except.noConfusion hh)

/-! ### The subset catalogs

`FACT_SUBSETS` keys of each module, in source (insertion) order.
In `iosxr_facts.py` the `optics` entry is commented out. -/

def iosxrSubsetList : List String :=
  ["default", "hardware", "interfaces", "config", "multicast", "bgp", "isis",
   "routes", "route_summary", "l2vpn"]

def junosSubsetList : List String :=
  ["default", "hardware", "config", "interfaces", "interfaces_ext", "optics",
   "temperatures", "bgp_summary", "bgp_peers", "snapshots", "route_summary",
   "routes", "isis_overview", "route_engine", "l2vpn"]

/-- `VALID_SUBSETS` of `iosxr_facts.py` (a `frozenset` of the catalog keys). -/
def iosxrValid : Finset String := iosxrSubsetList.toFinset

/-- `VALID_SUBSETS` of `junos_facts.py`. -/
def junosValid : Finset String := junosSubsetList.toFinset

/-! ### String helpers

The resolver uses `subset.startswith('!')` and `subset[1:]`; we model both on
the character list of the string so that everything reduces structurally. -/

/-- Python `subset.startswith('!')`. -/
def startsBang (s : String) : Bool := s.data.head? = some '!'

/-- Python `subset[1:]`: drop the first character. -/
def dropBang (s : String) : String := String.mk (s.data.drop 1)

/-! ### The resolver

Both `main` functions run the identical loop over `gather_subset`, differing
only in the message passed to `fail_json`:

    runable_subsets = set(); exclude_subsets = set()
    for subset in gather_subset:
        if subset == 'all': runable_subsets.update(VALID_SUBSETS); continue
        if subset.startswith('!'):
            subset = subset[1:]
            if subset == 'all': exclude_subsets.update(VALID_SUBSETS); continue
            exclude = True
        else: exclude = False
        if subset not in VALID_SUBSETS: module.fail_json(msg=...)
        if exclude: exclude_subsets.add(subset)
        else: runable_subsets.add(subset)
    if not runable_subsets: runable_subsets.update(VALID_SUBSETS)
    runable_subsets.difference_update(exclude_subsets)
    runable_subsets.add('default')

`fail_json` aborts the module, so the loop is embedded in `Except String`.
The failure message is parameterized (`failMsg` receives the token after the
`'!'` marker has been stripped, exactly as the Python `subset` variable at the
`fail_json` call site). -/

def resolveTokens (valid : Finset String) (failMsg : String → String) :
    List String → Finset String → Finset String →
    Except String (Finset String × Finset String)
  | [], run, exc => .ok (run, exc)
  | tok :: rest, run, exc =>
    if tok = "all" then
      resolveTokens valid failMsg rest (run ∪ valid) exc
    else if startsBang tok then
      let name := dropBang tok
      if name = "all" then
        resolveTokens valid failMsg rest run (exc ∪ valid)
      else if name ∈ valid then
        resolveTokens valid failMsg rest run (insert name exc)
      else
        .error (failMsg name)
    else if tok ∈ valid then
      resolveTokens valid failMsg rest (insert tok run) exc
    else
      .error (failMsg tok)

/-- The tail of `main` after the token loop: empty include means "everything",
then subtract the exclusions, then unconditionally re-add `default`. -/
def resolveRunSet (valid : Finset String) (failMsg : String → String)
    (tokens : List String) : Except String (Finset String) :=
  match resolveTokens valid failMsg tokens ∅ ∅ with
  | .error m => .error m
  | .ok (run, exc) =>
    let run := if run = ∅ then valid else run
    .ok (insert "default" (run \ exc))

/-- `iosxr_facts.py` fails with the fixed message `'Bad subset'`. -/
def iosxrFailMsg (_ : String) : String := "Bad subset"

/-- `junos_facts.py` fails with
`'Subset must be one of [%s], got %s' % (', '.join(VALID_SUBSETS), subset)`.
`VALID_SUBSETS` is a `frozenset`, whose iteration order Python leaves
unspecified; we join in catalog insertion order (the claims proved below about
this message only use substring membership, which holds for any order). -/
def junosMsgHead : String :=
  "Subset must be one of [" ++ String.intercalate ", " junosSubsetList ++ "], got "

def junosFailMsg (subset : String) : String := junosMsgHead ++ subset

def resolve_iosxr (tokens : List String) : Except String (Finset String) :=
  resolveRunSet iosxrValid iosxrFailMsg tokens

def resolve_junos (tokens : List String) : Except String (Finset String) :=
  resolveRunSet junosValid junosFailMsg tokens

/-- Default value of the `gather_subset` argument in `iosxr_facts.py`. -/
def iosxrDefaultTokens : List String := ["!config", "!routes"]

/-- Default value of the `gather_subset` argument in `junos_facts.py`
(note `'!bgppeers'`, while the catalog key is `bgp_peers`). -/
def junosDefaultTokens : List String := ["!config", "!routes", "!bgppeers"]

/-! ### Spec-side characterization of one resolution pass

`includeOf`/`excludeOf` are written from the specification's words (§4.1):
`I` is the set of positively requested names with `all` expanding to
`validNames`; `E` is the set of negated names with `!all` expanding to
`validNames`.  They are compared with the source-derived `resolveRunSet`. -/

def includeOf (valid : Finset String) : List String → Finset String
  | [] => ∅
  | t :: rest =>
    (if t = "all" then valid
     else if startsBang t then ∅
     else {t}) ∪ includeOf valid rest

def excludeOf (valid : Finset String) : List String → Finset String
  | [] => ∅
  | t :: rest =>
    (if t = "all" then ∅
     else if startsBang t then
       (if dropBang t = "all" then valid else {dropBang t})
     else ∅) ∪ excludeOf valid rest

/-- A token the resolver accepts: `all`, `!all`, a valid name, or `!` followed
by a valid name. -/
def TokValid (valid : Finset String) (t : String) : Prop :=
  t = "all" ∨
  (startsBang t = true ∧ (dropBang t = "all" ∨ dropBang t ∈ valid)) ∨
  (startsBang t = false ∧ t ∈ valid)

instance (valid : Finset String) (t : String) : Decidable (TokValid valid t) := by
  unfold TokValid; infer_instance

/-- The token to which the failure message is applied: the Python `subset`
variable at the `fail_json` call, i.e. the token with a leading `!` stripped. -/
def strippedName (t : String) : String :=
  if startsBang t then dropBang t else t

/-- `sub` occurs as a contiguous substring of `hay`. -/
def containsStr (hay sub : String) : Prop := sub.data <:+: hay.data

instance (hay sub : String) : Decidable (containsStr hay sub) := by
  unfold containsStr; infer_instance

/-! ### The fact-gathering pipeline after resolution

The extractor layer (dozens of per-command regex/XML scrapers) is out of scope
per the specification and is abstracted as an environment: for each subset name
it supplies the extractor's command list and its `populate` result, where
`none` stands for `populate` raising an exception.  Python `dict` values are
association lists in insertion order, with `dict.update` overwriting existing
keys in place and appending new ones. -/

inductive FValue where
  | str : String → FValue
  | strs : List String → FValue
  | nested : List (String × String) → FValue
deriving DecidableEq

/-- What an invocation of `main` produces.  `facts` is
`exit_json(ansible_facts=...)`; `out` is the `except`-branch
`exit_json(out=module.from_json(results))` of `iosxr_facts.py`, carrying the
zipped command/response pairs of the failing subset (`module.from_json` is
external and abstracted away); `failed` is `fail_json`; `crash` is an
exception that propagates out of `main` unhandled. -/
inductive Outcome where
  | facts : List (String × FValue) → Outcome
  | out : List (String × String) → Outcome
  | failed : String → Outcome
  | crash : Outcome
deriving DecidableEq

/-- Python `d[k] = v` on an insertion-ordered dict. -/
def setKey (m : List (String × FValue)) (k : String) (v : FValue) :
    List (String × FValue) :=
  if m.any (fun p => p.1 = k) then
    m.map (fun p => if p.1 = k then (k, v) else p)
  else m ++ [(k, v)]

/-- Python `m.update(delta)`. -/
def dictUpdate (m delta : List (String × FValue)) : List (String × FValue) :=
  delta.foldl (fun acc p => setKey acc p.1 p.2) m

/-- Python `m.get(k)`: first binding wins (keys are unique by construction). -/
def getKey (m : List (String × FValue)) (k : String) : Option FValue :=
  match m with
  | [] => none
  | p :: rest => if p.1 = k then some p.2 else getKey rest k

/-- An `iosxr_facts.py` catalog entry: `commands()` and
`populate(results)`, the latter returning the `facts` dict it builds, or
`none` when it raises. -/
structure IExtractor where
  commands : List String
  populate : List (String × String) → Option (List (String × FValue))

/-- A `junos_facts.py` catalog entry: its `populate()` talks to the device
itself (NETCONF), so it takes no response argument here. -/
structure JExtractor where
  populate : Option (List (String × FValue))

/-- The `try`-wrapped instance loop of `iosxr_facts.py`:

    for inst in instances:
        commands = inst.commands()
        responses = run_commands(module, commands)
        results = dict(zip(commands, responses))
        inst.populate(results)
        facts.update(inst.facts)

On an exception the `except` branch reports `results`, the zip built for the
instance that failed. -/
def iosxrLoop (env : String → IExtractor) (device : List String → List String) :
    List String → List (String × FValue) →
    Except (List (String × String)) (List (String × FValue))
  | [], facts => .ok facts
  | key :: rest, facts =>
    let inst := env key
    let commands := inst.commands
    let responses := device commands
    let results := commands.zip responses
    match inst.populate results with
    | none => .error results
    | some f => iosxrLoop env device rest (dictUpdate facts f)

/-- Python `set` iteration order is unspecified; both the `gather_subset` fact
and the instance loop iterate `runable_subsets`, modelled here in catalog
insertion order. -/
def iosxrKeys (s : Finset String) : List String :=
  iosxrSubsetList.filter (fun k => k ∈ s)

def junosKeys (s : Finset String) : List String :=
  junosSubsetList.filter (fun k => k ∈ s)

/-- `main` of `iosxr_facts.py` from the `gather_subset` read onwards. -/
def iosxrMain (env : String → IExtractor) (device : List String → List String)
    (tokens : List String) : Outcome :=
  match resolve_iosxr tokens with
  | .error m => .failed m
  | .ok runset =>
    let keys := iosxrKeys runset
    let facts0 : List (String × FValue) := [("gather_subset", .strs keys)]
    match iosxrLoop env device keys facts0 with
    | .error results => .out results
    | .ok facts => .facts (facts.map (fun p => ("ansible_net_" ++ p.1, p.2)))

/-- The instance loop of `junos_facts.py` has no `try`: a `populate`
exception propagates out of `main`. -/
def junosLoop (env : String → JExtractor) :
    List String → List (String × FValue) → Option (List (String × FValue))
  | [], facts => some facts
  | key :: rest, facts =>
    match (env key).populate with
    | none => none
    | some f => junosLoop env rest (dictUpdate facts f)

/-- `main` of `junos_facts.py` from the `gather_subset` read onwards. -/
def junosMain (env : String → JExtractor) (tokens : List String) : Outcome :=
  match resolve_junos tokens with
  | .error m => .failed m
  | .ok runset =>
    let keys := junosKeys runset
    let facts0 : List (String × FValue) := [("gather_subset", .strs keys)]
    match junosLoop env keys facts0 with
    | none => .crash
    | some facts => .facts (facts.map (fun p => ("ansible_net_" ++ p.1, p.2)))

/-- No extractor in either catalog emits a fact named `gather_subset` (each
writes its own specific keys), so the abstract environment is constrained
accordingly where a claim needs it. -/
def GoodIEnv (env : String → IExtractor) : Prop :=
  ∀ key results facts, (env key).populate results = some facts →
    ∀ p ∈ facts, p.1 ≠ "gather_subset"

def GoodJEnv (env : String → JExtractor) : Prop :=
  ∀ key facts, (env key).populate = some facts →
    ∀ p ∈ facts, p.1 ≠ "gather_subset"

/-! ### Concrete environments used to exercise the pipeline theorems -/

/-- Every extractor succeeds and contributes nothing. -/
def cGoodIEnv : String → IExtractor := fun _ => ⟨[], fun _ => some []⟩

def cGoodJEnv : String → JExtractor := fun _ => ⟨some []⟩

/-- The `hardware` extractor raises in `populate`; the rest succeed. -/
def cBadIEnv : String → IExtractor := fun key =>
  if key = "hardware" then ⟨["show version"], fun _ => none⟩
  else ⟨[], fun _ => some []⟩

def cBadJEnv : String → JExtractor := fun key =>
  if key = "hardware" then ⟨none⟩ else ⟨some []⟩

/-- A device that answers every command with a fixed response. -/
def cDevice : List String → List String := fun cmds => cmds.map (fun _ => "resp")

/-- The four-name catalog used by the specification's `["hardware"]` example. -/
def c8Catalog : Finset String := {"default", "hardware", "interfaces", "config"}

/-! ### `decode_os` of `parse_snmp_sysdescr.py`

The function splits the sysdescr on commas (`desc = sysdescr.split(',')`),
builds a dict `tokens = {i: desc[i].split()}` and then indexes into both
without any bounds checking.  A bad index into a *list* (`tokens[0][0]`)
raises `IndexError`; a missing *dict key* (`tokens[3]`) raises `KeyError`;
both abort `main`.  The embedding runs in `Except PyError` and keeps the two
apart, performing the indexings in the source's evaluation order. -/

inductive PyError where
  | indexError : PyError
  | keyError : PyError
deriving DecidableEq

/-- Python list indexing `l[i]`. -/
def listIdx {α : Type} (l : List α) (i : Nat) : Except PyError α :=
  match l.get? i with
  | some a => .ok a
  | none => .error .indexError

/-- Python dict indexing `tokens[i]` for the dict keyed `0 .. len-1`. -/
def dictIdx {α : Type} (l : List α) (i : Nat) : Except PyError α :=
  match l.get? i with
  | some a => .ok a
  | none => .error .keyError

def splitCommaAux : List Char → List Char → List (List Char)
  | [], acc => [acc.reverse]
  | c :: cs, acc =>
    if c = ',' then acc.reverse :: splitCommaAux cs []
    else splitCommaAux cs (c :: acc)

/-- Python `s.split(',')`: every comma splits, empty pieces kept, never `[]`. -/
def pySplitComma (s : String) : List String :=
  (splitCommaAux s.data []).map String.mk

def pyWordsAux : List Char → List Char → List (List Char)
  | [], acc => if acc = [] then [] else [acc.reverse]
  | c :: cs, acc =>
    if c.isWhitespace then
      (if acc = [] then pyWordsAux cs [] else acc.reverse :: pyWordsAux cs [])
    else pyWordsAux cs (c :: acc)

/-- Python `s.split()`: split on whitespace runs, dropping empty pieces
(`Char.isWhitespace` covers the whitespace that occurs in sysdescr strings). -/
def pyWords (s : String) : List String := (pyWordsAux s.data []).map String.mk

/-- Python `s.lower()` (ASCII, which is all the code compares against). -/
def lowerStr (s : String) : String := String.mk (s.data.map Char.toLower)

def chPre : List Char → List Char → Bool
  | [], _ => true
  | _ :: _, [] => false
  | a :: as, b :: bs => a = b && chPre as bs

def chSub (needle : List Char) : List Char → Bool
  | [] => needle.isEmpty
  | c :: cs => chPre needle (c :: cs) || chSub needle cs

/-- Python `re.search('version', string, re.IGNORECASE)`: the pattern has no
metacharacters, so it is a case-insensitive substring test. -/
def matchesVersion (s : String) : Bool := chSub "version".data (lowerStr s).data

/-- The `results` dict of `decode_os`, in its insertion order. -/
def osResult (vendor model osType version buildtime : String) :
    List (String × String) :=
  [("ansible_os_vendor", vendor), ("ansible_os_model", model),
   ("ansible_os_type", osType), ("ansible_os_version", version),
   ("ansible_os_buildtime", buildtime)]

/-- `decode_os(sysdescr)` of `parse_snmp_sysdescr.py`, line by line. -/
def decode_os (sysdescr : String) : Except PyError (List (String × String)) := do
  let desc := pySplitComma sysdescr
  let tokens := desc.map pyWords
  -- os_vendor = tokens[0][0]
  let t0 ← dictIdx tokens 0
  let os_vendor ← listIdx t0 0
  if lowerStr os_vendor = "cisco" then
    -- the condition reads tokens[0][2]; both branches read tokens[0][1]
    let w2 ← listIdx t0 2
    let w1 ← listIdx t0 1
    let osType := if lowerStr w2 = "software" then lowerStr w1
      else lowerStr w1 ++ "_" ++ lowerStr w2
    -- for string in desc: if re.search('version', ...): os_version = tokens[i][1]; break
    match desc.findIdx? matchesVersion with
    | none => pure (osResult os_vendor "Unknown" osType "Unknown" "Unknown")
    | some i => do
      let ti ← dictIdx tokens i
      let ver ← listIdx ti 1
      pure (osResult os_vendor "Unknown" osType ver "Unknown")
  else if lowerStr os_vendor = "juniper" then
    -- tokens[2][1].lower(); tokens[1][1]; tokens[2][2]; tokens[3][2] + ' ' + tokens[3][3]
    let t2 ← dictIdx tokens 2
    let w21 ← listIdx t2 1
    let t1 ← dictIdx tokens 1
    let w11 ← listIdx t1 1
    let w22 ← listIdx t2 2
    let t3 ← dictIdx tokens 3
    let w32 ← listIdx t3 2
    let w33 ← listIdx t3 3
    pure (osResult os_vendor w11 (lowerStr w21) w22 (w32 ++ " " ++ w33))
  else
    pure (osResult os_vendor "Unknown" "Unknown" "Unknown" "Unknown")

/-- The totality precondition exactly as claim C10 words it: first
comma-field non-empty; for Cisco, first field has ≥ 3 words and *any* field
matching `version` has ≥ 2 words; for Juniper, ≥ 4 comma-fields with fields
1, 2, 3 having ≥ 2, 3, 4 words. -/
def claimedPreC10 (s : String) : Prop :=
  let desc := pySplitComma s
  let w0 := pyWords (desc.getD 0 "")
  w0 ≠ [] ∧
  (lowerStr (w0.getD 0 "") = "cisco" →
    3 ≤ w0.length ∧ ∀ d ∈ desc, matchesVersion d → 2 ≤ (pyWords d).length) ∧
  (lowerStr (w0.getD 0 "") = "juniper" →
    4 ≤ desc.length ∧
    2 ≤ (pyWords (desc.getD 1 "")).length ∧
    3 ≤ (pyWords (desc.getD 2 "")).length ∧
    4 ≤ (pyWords (desc.getD 3 "")).length)

instance (s : String) : Decidable (claimedPreC10 s) := by
  unfold claimedPreC10; infer_instance

/-- The precondition `decode_os` actually needs: as `claimedPreC10`, except
that in the Cisco case only the *first* field matching `version` (the one the
loop reads before `break`) must have ≥ 2 words. -/
def correctedPreC10 (s : String) : Prop :=
  let desc := pySplitComma s
  let w0 := pyWords (desc.getD 0 "")
  w0 ≠ [] ∧
  (lowerStr (w0.getD 0 "") = "cisco" →
    3 ≤ w0.length ∧
    ∀ i ∈ (desc.findIdx? matchesVersion).toList,
      2 ≤ (pyWords (desc.getD i "")).length) ∧
  (lowerStr (w0.getD 0 "") = "juniper" →
    4 ≤ desc.length ∧
    2 ≤ (pyWords (desc.getD 1 "")).length ∧
    3 ≤ (pyWords (desc.getD 2 "")).length ∧
    4 ≤ (pyWords (desc.getD 3 "")).length)

instance (s : String) : Decidable (correctedPreC10 s) := by
  unfold correctedPreC10; infer_instance

theorem resolveTokens_ok_of_valid (valid : Finset String) (f : String → String)
    (tokens : List String) :
    ∀ run exc : Finset String, (∀ t ∈ tokens, TokValid valid t) →
      resolveTokens valid f tokens run exc =
        .ok (run ∪ includeOf valid tokens, exc ∪ excludeOf valid tokens) := by
  induction tokens with
  | nil => intro run exc _; simp [resolveTokens, includeOf, excludeOf]
  | cons t rest ih =>
    intro run exc h
    have ht : TokValid valid t := h t (List.mem_cons_self t rest)
    have hrest : ∀ x ∈ rest, TokValid valid x :=
      fun x hx => h x (List.mem_cons_of_mem t hx)
    by_cases h1 : t = "all"
    · simp [resolveTokens, h1, includeOf, excludeOf, ih _ _ hrest,
        Finset.union_assoc]
    · by_cases h2 : startsBang t
      · by_cases h3 : dropBang t = "all"
        · simp [resolveTokens, h1, h2, h3, includeOf, excludeOf,
            ih _ _ hrest, Finset.union_assoc]
        · have hv : dropBang t ∈ valid := by
            rcases ht with ha | ⟨_, hb | hb⟩ | ⟨hn, _⟩
            · exact absurd ha h1
            · exact absurd hb h3
            · exact hb
            · rw [h2] at hn; cases hn
          simp [resolveTokens, h1, h2, h3, hv, includeOf, excludeOf,
            ih _ _ hrest, Finset.insert_eq, Finset.union_assoc,
            Finset.union_left_comm]
      · have hv : t ∈ valid := by
          rcases ht with ha | ⟨hb, _⟩ | ⟨_, hm⟩
          · exact absurd ha h1
          · exact absurd hb (by simpa using h2)
          · exact hm
        simp [resolveTokens, h1, h2, hv, includeOf, excludeOf,
          ih _ _ hrest, Finset.insert_eq, Finset.union_assoc,
          Finset.union_left_comm]

theorem resolveRunSet_of_valid (valid : Finset String) (f : String → String)
    (tokens : List String) (h : ∀ t ∈ tokens, TokValid valid t) :
    resolveRunSet valid f tokens =
      .ok (insert "default"
        ((if includeOf valid tokens = ∅ then valid else includeOf valid tokens) \
          excludeOf valid tokens)) := by
  unfold resolveRunSet
  rw [resolveTokens_ok_of_valid valid f tokens ∅ ∅ h]
  simp

/-- A successful pass means every token was accepted: the error branch is the
only exit that skips the remaining tokens. -/
theorem tokens_valid_of_ok (valid : Finset String) (f : String → String) :
    ∀ (tokens : List String) (run exc : Finset String) (p : Finset String × Finset String),
      resolveTokens valid f tokens run exc = .ok p →
      ∀ t ∈ tokens, TokValid valid t := by
  intro tokens
  induction tokens with
  | nil => intro _ _ _ _ t htm; cases htm
  | cons t rest ih =>
    intro run exc p hok x hx
    rcases List.mem_cons.mp hx with hxeq | hxr
    · subst hxeq
      by_cases h1 : x = "all"
      · exact Or.inl h1
      · by_cases h2 : startsBang x
        · by_cases h3 : dropBang x = "all"
          · exact Or.inr (Or.inl ⟨h2, Or.inl h3⟩)
          · by_cases h4 : dropBang x ∈ valid
            · exact Or.inr (Or.inl ⟨h2, Or.inr h4⟩)
            · rw [resolveTokens] at hok
              simp [h1, h2, h3, h4] at hok
        · by_cases h4 : x ∈ valid
          · exact Or.inr (Or.inr ⟨by simpa using h2, h4⟩)
          · rw [resolveTokens] at hok
            simp [h1, h2, h4] at hok
    · by_cases h1 : t = "all"
      · rw [resolveTokens] at hok
        simp only [h1, if_pos rfl] at hok
        exact ih _ _ _ (by simpa using hok) x hxr
      · by_cases h2 : startsBang t
        · by_cases h3 : dropBang t = "all"
          · rw [resolveTokens] at hok
            simp only [h1, h2, h3, if_neg h1, if_pos rfl, if_true] at hok
            exact ih _ _ _ (by simpa [h1, h2, h3] using hok) x hxr
          · by_cases h4 : dropBang t ∈ valid
            · rw [resolveTokens] at hok
              exact ih _ _ _ (by simpa [h1, h2, h3, h4] using hok) x hxr
            · rw [resolveTokens] at hok
              simp [h1, h2, h3, h4] at hok
        · by_cases h4 : t ∈ valid
          · rw [resolveTokens] at hok
            exact ih _ _ _ (by simpa [h1, h2, h4] using hok) x hxr
          · rw [resolveTokens] at hok
            simp [h1, h2, h4] at hok

/-! ### Small string facts about the `!` marker -/

theorem data_bang (x : String) : ("!" ++ x).data = '!' :: x.data := by
  rw [String.data_append]; rfl

theorem startsBang_bang (x : String) : startsBang ("!" ++ x) = true := by
  simp [startsBang, data_bang]

theorem mk_data (s : String) : String.mk s.data = s := rfl

theorem dropBang_bang (x : String) : dropBang ("!" ++ x) = x := by
  rw [dropBang, data_bang, List.drop_succ_cons, List.drop_zero, mk_data]

theorem bang_ne_all (x : String) : ("!" ++ x) ≠ "all" := by
  intro h
  have h2 : ('!' :: x.data) = "all".data := by rw [← data_bang, h]
  have h3 : "all".data = ['a', 'l', 'l'] := rfl
  rw [h3] at h2
  injection h2 with h4 _
  exact absurd h4 (by decide)

/-! ### Membership facts about the exclusion and inclusion sets -/

theorem mem_excludeOf (valid : Finset String) (x : String) (hne : x ≠ "all") :
    ∀ tokens : List String, ("!" ++ x) ∈ tokens → x ∈ excludeOf valid tokens := by
  intro tokens
  induction tokens with
  | nil => intro h; cases h
  | cons t rest ih =>
    intro h
    rcases List.mem_cons.mp h with heq | hr
    · rw [← heq, excludeOf]
      refine Finset.mem_union_left _ ?_
      simp [bang_ne_all x, startsBang_bang, dropBang_bang, hne]
    · exact Finset.mem_union_right _ (ih hr)

theorem subset_excludeOf_bang_all (valid : Finset String) :
    ∀ tokens : List String, ("!" ++ "all") ∈ tokens →
      valid ⊆ excludeOf valid tokens := by
  intro tokens
  induction tokens with
  | nil => intro h; cases h
  | cons t rest ih =>
    intro h
    rcases List.mem_cons.mp h with heq | hr
    · rw [← heq, excludeOf]
      intro y hy
      refine Finset.mem_union_left _ ?_
      simpa [bang_ne_all "all", startsBang_bang, dropBang_bang] using hy
    · intro y hy
      exact Finset.mem_union_right _ (ih hr hy)

theorem includeOf_subset (valid : Finset String) :
    ∀ tokens : List String, (∀ t ∈ tokens, TokValid valid t) →
      includeOf valid tokens ⊆ valid := by
  intro tokens
  induction tokens with
  | nil => intro _; rw [includeOf]; exact Finset.empty_subset _
  | cons t rest ih =>
    intro h
    have ht : TokValid valid t := h t (List.mem_cons_self t rest)
    have hrest : ∀ x ∈ rest, TokValid valid x :=
      fun x hx => h x (List.mem_cons_of_mem t hx)
    rw [includeOf]
    refine Finset.union_subset ?_ (ih hrest)
    by_cases h1 : t = "all"
    · simp [h1]
    · by_cases h2 : startsBang t
      · simp [h1, h2]
      · have hv : t ∈ valid := by
          rcases ht with ha | ⟨hb, _⟩ | ⟨_, hm⟩
          · exact absurd ha h1
          · exact absurd hb (by simpa using h2)
          · exact hm
        simp [h1, h2, Finset.singleton_subset_iff, hv]

/-- Whatever the tokens, a successful resolution produced
`insert "default" (… \ …)`, so `default` is a member. -/
theorem default_mem_of_ok (valid : Finset String) (f : String → String)
    (tokens : List String) (s : Finset String)
    (h : resolveRunSet valid f tokens = .ok s) : "default" ∈ s := by
  unfold resolveRunSet at h
  cases he : resolveTokens valid f tokens ∅ ∅ with
  | error m => rw [he] at h; cases h
  | ok p =>
    obtain ⟨run, exc⟩ := p
    rw [he] at h
    have h2 := Except.ok.inj h
    rw [← h2]
    exact Finset.mem_insert_self _ _

/-- Shape of a successful resolution. -/
theorem resolveRunSet_ok_elim (valid : Finset String) (f : String → String)
    (tokens : List String) (s : Finset String)
    (h : resolveRunSet valid f tokens = .ok s) :
    ∃ run exc, resolveTokens valid f tokens ∅ ∅ = .ok (run, exc) ∧
      s = insert "default" ((if run = ∅ then valid else run) \ exc) := by
  unfold resolveRunSet at h
  cases he : resolveTokens valid f tokens ∅ ∅ with
  | error m => rw [he] at h; cases h
  | ok p =>
    obtain ⟨run, exc⟩ := p
    rw [he] at h
    exact ⟨run, exc, rfl, (Except.ok.inj h).symm⟩

/-- A failing pass fails at some invalid token, and the message is `failMsg`
applied to that token with its negation marker stripped. -/
theorem resolveTokens_error_spec (valid : Finset String) (f : String → String) :
    ∀ (tokens : List String) (run exc : Finset String) (m : String),
      resolveTokens valid f tokens run exc = .error m →
      ∃ t ∈ tokens, ¬ TokValid valid t ∧ m = f (strippedName t) := by
  intro tokens
  induction tokens with
  | nil => intro run exc m h; rw [resolveTokens] at h; cases h
  | cons t rest ih =>
    intro run exc m h
    rw [resolveTokens] at h
    by_cases h1 : t = "all"
    · rw [if_pos h1] at h
      obtain ⟨x, hx, hnv, hm⟩ := ih _ _ _ h
      exact ⟨x, List.mem_cons_of_mem _ hx, hnv, hm⟩
    · rw [if_neg h1] at h
      by_cases h2 : startsBang t
      · rw [if_pos h2] at h
        by_cases h3 : dropBang t = "all"
        · rw [if_pos h3] at h
          obtain ⟨x, hx, hnv, hm⟩ := ih _ _ _ h
          exact ⟨x, List.mem_cons_of_mem _ hx, hnv, hm⟩
        · rw [if_neg h3] at h
          by_cases h4 : dropBang t ∈ valid
          · rw [if_pos h4] at h
            obtain ⟨x, hx, hnv, hm⟩ := ih _ _ _ h
            exact ⟨x, List.mem_cons_of_mem _ hx, hnv, hm⟩
          · rw [if_neg h4] at h
            refine ⟨t, List.mem_cons_self t rest, ?_, ?_⟩
            · intro hv
              rcases hv with ha | ⟨_, hb | hb⟩ | ⟨hn, _⟩
              · exact h1 ha
              · exact h3 hb
              · exact h4 hb
              · rw [h2] at hn; cases hn
            · rw [strippedName, if_pos h2]
              exact (Except.error.inj h).symm
      · rw [if_neg h2] at h
        by_cases h4 : t ∈ valid
        · rw [if_pos h4] at h
          obtain ⟨x, hx, hnv, hm⟩ := ih _ _ _ h
          exact ⟨x, List.mem_cons_of_mem _ hx, hnv, hm⟩
        · rw [if_neg h4] at h
          refine ⟨t, List.mem_cons_self t rest, ?_, ?_⟩
          · intro hv
            rcases hv with ha | ⟨hb, _⟩ | ⟨_, hm2⟩
            · exact h1 ha
            · exact absurd hb (by simpa using h2)
            · exact h4 hm2
          · rw [strippedName, if_neg h2]
            exact (Except.error.inj h).symm

/-- A token list with an invalid token resolves to the matching failure. -/
theorem resolveRunSet_error_of_invalid (valid : Finset String)
    (f : String → String) (tokens : List String)
    (h : ∃ t ∈ tokens, ¬ TokValid valid t) :
    ∃ t ∈ tokens, ¬ TokValid valid t ∧
      resolveRunSet valid f tokens = .error (f (strippedName t)) := by
  cases he : resolveTokens valid f tokens ∅ ∅ with
  | ok p =>
    obtain ⟨t, ht, hnv⟩ := h
    exact absurd (tokens_valid_of_ok valid f tokens ∅ ∅ p he t ht) hnv
  | error m =>
    obtain ⟨t, ht, hnv, hm⟩ := resolveTokens_error_spec valid f tokens ∅ ∅ m he
    refine ⟨t, ht, hnv, ?_⟩
    unfold resolveRunSet
    rw [he, hm]

/-- The junos failure message ends with the offending (stripped) token. -/
theorem containsStr_junosFailMsg_name (name : String) :
    containsStr (junosFailMsg name) name := by
  unfold containsStr junosFailMsg
  rw [String.data_append]
  exact ⟨junosMsgHead.data, [], by simp⟩

/-- The junos failure message lists every valid subset name. -/
theorem containsStr_junosFailMsg_valid (name v : String)
    (hv : v ∈ junosSubsetList) : containsStr (junosFailMsg name) v := by
  have hbase : ∀ w ∈ junosSubsetList, w.data <:+: junosMsgHead.data := by decide
  obtain ⟨s, t, hst⟩ := hbase v hv
  unfold containsStr junosFailMsg
  rw [String.data_append]
  exact ⟨s, t ++ name.data, by rw [← hst]; simp⟩

/-- C1: for every token list and every catalog, a successful resolution
contains the `default` subset: the resolver ends with
`runable_subsets.add('default')`, after all exclusions have been applied, so
no exclusion request (`!all`, `!default` included) ever removes it. -/
theorem claim_C1 (valid : Finset String) (f : String → String)
    (tokens : List String) (s : Finset String)
    (h : resolveRunSet valid f tokens = .ok s) : "default" ∈ s :=
  default_mem_of_ok valid f tokens s h

theorem claim_C1_witness :
    "default" ∈ ({"default"} : Finset String) ∧
      "default" ∈ insert "default" (iosxrValid \ {"default"}) :=
  ⟨claim_C1 iosxrValid iosxrFailMsg ["!all"] {"default"} (by decide),
   claim_C1 iosxrValid iosxrFailMsg ["!default"]
     (insert "default" (iosxrValid \ {"default"})) (by decide)⟩

/-- C2: on a token list whose tokens are all valid, the resolver returns
exactly `((I if I ≠ ∅ else validNames) − E) ∪ {default}` with `I` the
positively requested names (`all` ↦ `validNames`) and `E` the negated names
(`!all` ↦ `validNames`); resolving `[]` yields the full valid set plus
`default`. -/
theorem claim_C2 :
    (∀ (valid : Finset String) (f : String → String) (tokens : List String),
        (∀ t ∈ tokens, TokValid valid t) →
        resolveRunSet valid f tokens =
          .ok (insert "default"
            ((if includeOf valid tokens = ∅ then valid
              else includeOf valid tokens) \ excludeOf valid tokens))) ∧
      resolve_iosxr [] = .ok (insert "default" iosxrValid) ∧
      resolve_junos [] = .ok (insert "default" junosValid) :=
  ⟨resolveRunSet_of_valid, by decide, by decide⟩

theorem claim_C2_witness :
    resolve_iosxr ["hardware", "!config"] =
      .ok (insert "default"
        ((if includeOf iosxrValid ["hardware", "!config"] = ∅ then iosxrValid
          else includeOf iosxrValid ["hardware", "!config"]) \
          excludeOf iosxrValid ["hardware", "!config"])) :=
  claim_C2.1 iosxrValid iosxrFailMsg ["hardware", "!config"] (by decide)

/-- C4: a negation always wins over an inclusion of the same name (other than
`default`): the name lands in `exclude_subsets`, and
`difference_update` runs before `default` is re-added; and
`["all", "!hardware"]` resolves to every valid name except `hardware`, plus
`default`, in both modules. -/
theorem claim_C4 :
    (∀ (valid : Finset String) (f : String → String) (tokens : List String)
        (x : String) (s : Finset String),
        x ≠ "default" → x ∈ tokens → ("!" ++ x) ∈ tokens →
        resolveRunSet valid f tokens = .ok s → x ∉ s) ∧
      resolve_iosxr ["all", "!hardware"] =
        .ok (insert "default" (iosxrValid \ {"hardware"})) ∧
      resolve_junos ["all", "!hardware"] =
        .ok (insert "default" (junosValid \ {"hardware"})) := by
  refine ⟨?_, by decide, by decide⟩
  intro valid f tokens x s hxd _ hbang hok hmem
  obtain ⟨run, exc, hrt, hs⟩ := resolveRunSet_ok_elim valid f tokens s hok
  have hvalid : ∀ t ∈ tokens, TokValid valid t :=
    tokens_valid_of_ok valid f tokens ∅ ∅ _ hrt
  have hchar := resolveTokens_ok_of_valid valid f tokens ∅ ∅ hvalid
  rw [hrt] at hchar
  have hpair := Except.ok.inj hchar
  have hrun : run = includeOf valid tokens := by
    have := congrArg Prod.fst hpair; simpa using this
  have hexc : exc = excludeOf valid tokens := by
    have := congrArg Prod.snd hpair; simpa using this
  rw [hs] at hmem
  rcases Finset.mem_insert.mp hmem with hd | hsd
  · exact hxd hd
  · rw [Finset.mem_sdiff] at hsd
    obtain ⟨hin, hnex⟩ := hsd
    by_cases hall : x = "all"
    · subst hall
      have hvE : valid ⊆ exc := by
        rw [hexc]
        exact subset_excludeOf_bang_all valid tokens hbang
      have hRv : (if run = ∅ then valid else run) ⊆ valid := by
        by_cases hre : run = ∅
        · rw [if_pos hre]
        · rw [if_neg hre, hrun]
          exact includeOf_subset valid tokens hvalid
      exact hnex (hvE (hRv hin))
    · refine hnex ?_
      rw [hexc]
      exact mem_excludeOf valid x hall tokens hbang

theorem claim_C4_witness :
    "hardware" ∉ ({"default"} : Finset String) :=
  claim_C4.1 iosxrValid iosxrFailMsg ["hardware", "!hardware"] "hardware"
    {"default"} (by decide) (by decide) (by decide) (by decide)

/-- C5 (amended): the iosxr default `['!config', '!routes']` resolves to the
full valid set minus `{config, routes}` plus `default`; the junos default
`['!config', '!routes', '!bgppeers']` does not resolve at all — `bgppeers` is
not a catalog name (the catalog and the module's DOCUMENTATION use
`bgp_peers`), so the module's own default value fails validation. -/
theorem claim_C5 :
    resolve_iosxr iosxrDefaultTokens =
        .ok (insert "default" (iosxrValid \ {"config", "routes"})) ∧
      resolve_junos junosDefaultTokens = .error (junosFailMsg "bgppeers") := by
  decide

theorem claim_C5_counterexample :
    (resolve_junos junosDefaultTokens).isOk = false ∧
      resolve_junos junosDefaultTokens = .error (junosFailMsg "bgppeers") := by
  decide

/-- C8: `["hardware"]` against the catalog `{default, hardware, interfaces,
config}` yields exactly `{hardware, default}` — a non-empty positive include
restricts the run to the named subsets plus `default`. -/
theorem claim_C8 :
    resolveRunSet c8Catalog iosxrFailMsg ["hardware"] =
      .ok {"hardware", "default"} := by decide

/-- C3 (amended): resolution fails before any device interaction whenever a
token (after stripping `!`) names an unknown subset — the outcome is
`failed` for every environment and device.  The junos failure message names
the stripped offending token and lists every valid name; the iosxr message is
the fixed string `'Bad subset'`, which names neither (see the
counterexample). -/
theorem claim_C3 :
    (∀ tokens : List String, (∃ t ∈ tokens, ¬ TokValid iosxrValid t) →
      ∃ m, ∀ env device, iosxrMain env device tokens = .failed m) ∧
    (∀ tokens : List String, (∃ t ∈ tokens, ¬ TokValid junosValid t) →
      ∃ t ∈ tokens, ¬ TokValid junosValid t ∧
        ∃ m, (∀ env, junosMain env tokens = .failed m) ∧
          containsStr m (strippedName t) ∧
          ∀ v ∈ junosSubsetList, containsStr m v) := by
  constructor
  · intro tokens h
    obtain ⟨t, _, _, herr⟩ :=
      resolveRunSet_error_of_invalid iosxrValid iosxrFailMsg tokens h
    refine ⟨iosxrFailMsg (strippedName t), fun env device => ?_⟩
    unfold iosxrMain resolve_iosxr
    rw [herr]
  · intro tokens h
    obtain ⟨t, ht, hnv, herr⟩ :=
      resolveRunSet_error_of_invalid junosValid junosFailMsg tokens h
    refine ⟨t, ht, hnv, junosFailMsg (strippedName t), fun env => ?_, ?_, ?_⟩
    · unfold junosMain resolve_junos
      rw [herr]
    · exact containsStr_junosFailMsg_name _
    · exact fun v hv => containsStr_junosFailMsg_valid _ v hv

theorem claim_C3_counterexample :
    resolve_iosxr ["bogus"] = .error "Bad subset" ∧
      ¬ containsStr "Bad subset" "bogus" ∧
      ¬ containsStr "Bad subset" "hardware" := by decide

theorem claim_C3_witness :
    (∃ m, ∀ env device, iosxrMain env device ["bogus"] = Outcome.failed m) ∧
      (∃ t ∈ ["bogus"], ¬ TokValid junosValid t ∧
        ∃ m, (∀ env, junosMain env ["bogus"] = Outcome.failed m) ∧
          containsStr m (strippedName t) ∧
          ∀ v ∈ junosSubsetList, containsStr m v) :=
  ⟨claim_C3.1 ["bogus"] (by decide), claim_C3.2 ["bogus"] (by decide)⟩

/-! ### Facts about the dict model and the instance loops -/

theorem getKey_mapOverwrite (k k' : String) (v : FValue) (hne : k' ≠ k) :
    ∀ m : List (String × FValue),
      getKey (m.map (fun p => if p.1 = k' then (k', v) else p)) k = getKey m k := by
  intro m
  induction m with
  | nil => rfl
  | cons p rest ih =>
    rw [List.map_cons]
    by_cases hp : p.1 = k'
    · rw [if_pos hp]
      simp only [getKey]
      have hpk : p.1 ≠ k := by rw [hp]; exact hne
      rw [if_neg hne, if_neg hpk]
      exact ih
    · rw [if_neg hp]
      simp only [getKey]
      by_cases hk : p.1 = k
      · rw [if_pos hk, if_pos hk]
      · rw [if_neg hk, if_neg hk]
        exact ih

theorem getKey_append_ne (k k' : String) (v : FValue) (hne : k' ≠ k) :
    ∀ m : List (String × FValue), getKey (m ++ [(k', v)]) k = getKey m k := by
  intro m
  induction m with
  | nil => simp only [List.nil_append, getKey, if_neg hne]
  | cons p rest ih =>
    rw [List.cons_append]
    simp only [getKey]
    by_cases hk : p.1 = k
    · rw [if_pos hk, if_pos hk]
    · rw [if_neg hk, if_neg hk]
      exact ih

theorem getKey_setKey_ne (m : List (String × FValue)) (k k' : String)
    (v : FValue) (hne : k' ≠ k) : getKey (setKey m k' v) k = getKey m k := by
  unfold setKey
  by_cases ha : m.any (fun p => p.1 = k')
  · rw [if_pos ha]; exact getKey_mapOverwrite k k' v hne m
  · rw [if_neg ha]; exact getKey_append_ne k k' v hne m

theorem getKey_dictUpdate_ne (k : String) :
    ∀ (delta m : List (String × FValue)), (∀ p ∈ delta, p.1 ≠ k) →
      getKey (dictUpdate m delta) k = getKey m k := by
  intro delta
  induction delta with
  | nil => intro m _; rfl
  | cons p rest ih =>
    intro m h
    have hp : p.1 ≠ k := h p (List.mem_cons_self _ _)
    have hr : ∀ q ∈ rest, q.1 ≠ k := fun q hq => h q (List.mem_cons_of_mem _ hq)
    unfold dictUpdate
    rw [List.foldl_cons]
    have hrec := ih (setKey m p.1 p.2) hr
    unfold dictUpdate at hrec
    rw [hrec, getKey_setKey_ne m k p.1 p.2 hp]

theorem iosxrLoop_ok_getKey (env : String → IExtractor)
    (device : List String → List String) (henv : GoodIEnv env) :
    ∀ (keys : List String) (facts out : List (String × FValue)),
      iosxrLoop env device keys facts = .ok out →
      getKey out "gather_subset" = getKey facts "gather_subset" := by
  intro keys
  induction keys with
  | nil =>
    intro facts out h
    rw [iosxrLoop] at h
    rw [← Except.ok.inj h]
  | cons key rest ih =>
    intro facts out h
    rw [iosxrLoop] at h
    cases hp : (env key).populate
        ((env key).commands.zip (device (env key).commands)) with
    | none => rw [hp] at h; cases h
    | some fnew =>
      rw [hp] at h
      rw [ih _ _ h, getKey_dictUpdate_ne _ fnew facts (henv key _ fnew hp)]

theorem junosLoop_ok_getKey (env : String → JExtractor) (henv : GoodJEnv env) :
    ∀ (keys : List String) (facts out : List (String × FValue)),
      junosLoop env keys facts = some out →
      getKey out "gather_subset" = getKey facts "gather_subset" := by
  intro keys
  induction keys with
  | nil =>
    intro facts out h
    rw [junosLoop] at h
    rw [← Option.some.inj h]
  | cons key rest ih =>
    intro facts out h
    rw [junosLoop] at h
    cases hp : (env key).populate with
    | none => rw [hp] at h; cases h
    | some fnew =>
      rw [hp] at h
      rw [ih _ _ h, getKey_dictUpdate_ne _ fnew facts (henv key fnew hp)]

theorem iosxrLoop_error (env : String → IExtractor)
    (device : List String → List String) :
    ∀ (keys : List String) (facts : List (String × FValue)),
      (∃ k ∈ keys,
        (env k).populate ((env k).commands.zip (device (env k).commands)) = none) →
      ∃ r, iosxrLoop env device keys facts = .error r := by
  intro keys
  induction keys with
  | nil => intro facts ⟨k, hk, _⟩; cases hk
  | cons key rest ih =>
    intro facts ⟨k, hk, hnone⟩
    rw [iosxrLoop]
    cases hp : (env key).populate
        ((env key).commands.zip (device (env key).commands)) with
    | none => exact ⟨_, rfl⟩
    | some fnew =>
      rcases List.mem_cons.mp hk with he | hr
      · rw [← he] at hp
        rw [hnone] at hp
        cases hp
      · exact ih _ ⟨k, hr, hnone⟩

theorem junosLoop_none (env : String → JExtractor) :
    ∀ (keys : List String) (facts : List (String × FValue)),
      (∃ k ∈ keys, (env k).populate = none) →
      junosLoop env keys facts = none := by
  intro keys
  induction keys with
  | nil => intro facts ⟨k, hk, _⟩; cases hk
  | cons key rest ih =>
    intro facts ⟨k, hk, hnone⟩
    rw [junosLoop]
    cases hp : (env key).populate with
    | none => rfl
    | some fnew =>
      rcases List.mem_cons.mp hk with he | hr
      · rw [← he] at hp
        rw [hnone] at hp
        cases hp
      · exact ih _ ⟨k, hr, hnone⟩

theorem string_of_data_eq (a b : String) (h : a.data = b.data) : a = b := by
  cases a; cases b; exact congrArg String.mk h

theorem netKey_cancel (a b : String)
    (h : "ansible_net_" ++ a = "ansible_net_" ++ b) : a = b := by
  have hd := congrArg String.data h
  rw [String.data_append, String.data_append] at hd
  exact string_of_data_eq a b (List.append_cancel_left hd)

theorem getKey_map_net (k : String) :
    ∀ m : List (String × FValue),
      getKey (m.map (fun p => ("ansible_net_" ++ p.1, p.2)))
          ("ansible_net_" ++ k) = getKey m k := by
  intro m
  induction m with
  | nil => rfl
  | cons p rest ih =>
    rw [List.map_cons]
    simp only [getKey]
    by_cases hk : p.1 = k
    · rw [if_pos (by rw [hk]), if_pos hk]
    · rw [if_neg (fun hh => hk (netKey_cancel _ _ hh)), if_neg hk]
      exact ih

/-- A successful resolution stays inside the catalog (given that the catalog
contains `default`, as both catalogs do). -/
theorem runset_subset (valid : Finset String) (f : String → String)
    (tokens : List String) (s : Finset String) (hd : "default" ∈ valid)
    (h : resolveRunSet valid f tokens = .ok s) : s ⊆ valid := by
  obtain ⟨run, exc, hrt, hs⟩ := resolveRunSet_ok_elim valid f tokens s h
  have hvalid : ∀ t ∈ tokens, TokValid valid t :=
    tokens_valid_of_ok valid f tokens ∅ ∅ _ hrt
  have hchar := resolveTokens_ok_of_valid valid f tokens ∅ ∅ hvalid
  rw [hrt] at hchar
  have hrun : run = includeOf valid tokens := by
    have := congrArg Prod.fst (Except.ok.inj hchar); simpa using this
  rw [hs]
  intro y hy
  rcases Finset.mem_insert.mp hy with hyd | hysd
  · rw [hyd]; exact hd
  · have hyR := (Finset.mem_sdiff.mp hysd).1
    by_cases hre : run = ∅
    · rw [if_pos hre] at hyR; exact hyR
    · rw [if_neg hre, hrun] at hyR
      exact includeOf_subset valid tokens hvalid hyR

/-- C6 (amended): when the `populate` step of some selected subset fails, the
iosxr module's `except` branch exits with `out=` the raw command/response
pairs of the failing subset — not the facts gathered so far — and the junos
module, which has no `try` at all, lets the exception propagate with no
result. -/
theorem claim_C6 :
    (∀ (env : String → IExtractor) (device : List String → List String)
        (tokens : List String) (s : Finset String),
        resolve_iosxr tokens = .ok s →
        (∃ k ∈ iosxrKeys s,
          (env k).populate ((env k).commands.zip (device (env k).commands)) = none) →
        ∃ r, iosxrMain env device tokens = .out r) ∧
      (∀ (env : String → JExtractor) (tokens : List String) (s : Finset String),
        resolve_junos tokens = .ok s →
        (∃ k ∈ junosKeys s, (env k).populate = none) →
        junosMain env tokens = .crash) := by
  constructor
  · intro env device tokens s hres hex
    obtain ⟨r, hr⟩ := iosxrLoop_error env device (iosxrKeys s)
      [("gather_subset", .strs (iosxrKeys s))] hex
    refine ⟨r, ?_⟩
    unfold iosxrMain
    rw [hres]
    show (match iosxrLoop env device (iosxrKeys s)
        [("gather_subset", .strs (iosxrKeys s))] with
      | .error results => Outcome.out results
      | .ok facts =>
        Outcome.facts (facts.map (fun p => ("ansible_net_" ++ p.1, p.2)))) =
      Outcome.out r
    rw [hr]
  · intro env tokens s hres hex
    unfold junosMain
    rw [hres]
    show (match junosLoop env (junosKeys s)
        [("gather_subset", .strs (junosKeys s))] with
      | none => Outcome.crash
      | some facts =>
        Outcome.facts (facts.map (fun p => ("ansible_net_" ++ p.1, p.2)))) =
      Outcome.crash
    rw [junosLoop_none env (junosKeys s) _ hex]

theorem claim_C6_counterexample :
    iosxrMain cBadIEnv cDevice ["hardware"] = .out [("show version", "resp")] ∧
      junosMain cBadJEnv ["hardware"] = Outcome.crash := by decide

theorem claim_C6_witness :
    (∃ r, iosxrMain cBadIEnv cDevice ["hardware"] = Outcome.out r) ∧
      junosMain cBadJEnv ["hardware"] = Outcome.crash :=
  ⟨claim_C6.1 cBadIEnv cDevice ["hardware"] {"hardware", "default"}
      (by decide) (by decide),
   claim_C6.2 cBadJEnv ["hardware"] {"hardware", "default"}
      (by decide) (by decide)⟩

/-- C7: on every successful invocation every key of the returned fact map
carries the `ansible_net_` namespace tag, and `ansible_net_gather_subset` is
present, listing exactly the resolved RunSet (as long as no extractor emits a
fact named `gather_subset`, which none in either catalog does). -/
theorem claim_C7 :
    (∀ (env : String → IExtractor) (device : List String → List String)
        (tokens : List String) (m : List (String × FValue)),
        GoodIEnv env → iosxrMain env device tokens = .facts m →
        (∀ p ∈ m, ∃ k v, p = ("ansible_net_" ++ k, v)) ∧
        ∃ s, resolve_iosxr tokens = .ok s ∧
          getKey m "ansible_net_gather_subset" = some (.strs (iosxrKeys s)) ∧
          ∀ x, x ∈ iosxrKeys s ↔ x ∈ s) ∧
      (∀ (env : String → JExtractor) (tokens : List String)
          (m : List (String × FValue)),
        GoodJEnv env → junosMain env tokens = .facts m →
        (∀ p ∈ m, ∃ k v, p = ("ansible_net_" ++ k, v)) ∧
        ∃ s, resolve_junos tokens = .ok s ∧
          getKey m "ansible_net_gather_subset" = some (.strs (junosKeys s)) ∧
          ∀ x, x ∈ junosKeys s ↔ x ∈ s) := by
  constructor
  · intro env device tokens m henv h
    unfold iosxrMain at h
    cases hres : resolve_iosxr tokens with
    | error msg => rw [hres] at h; cases h
    | ok s =>
      rw [hres] at h
      replace h :
          (match iosxrLoop env device (iosxrKeys s)
              [("gather_subset", .strs (iosxrKeys s))] with
            | .error results => Outcome.out results
            | .ok facts =>
              Outcome.facts (facts.map (fun p => ("ansible_net_" ++ p.1, p.2)))) =
            Outcome.facts m := h
      cases hloop : iosxrLoop env device (iosxrKeys s)
          [("gather_subset", .strs (iosxrKeys s))] with
      | error r => rw [hloop] at h; cases h
      | ok facts =>
        rw [hloop] at h
        have hm := Outcome.facts.inj h
        constructor
        · intro p hp
          rw [← hm] at hp
          obtain ⟨q, _, hq⟩ := List.mem_map.mp hp
          exact ⟨q.1, q.2, hq.symm⟩
        · refine ⟨s, rfl, ?_, ?_⟩
          · have hkey : ("ansible_net_" ++ "gather_subset" : String) =
                "ansible_net_gather_subset" := by decide
            rw [← hm, ← hkey, getKey_map_net,
              iosxrLoop_ok_getKey env device henv _ _ _ hloop]
            rfl
          · intro x
            constructor
            · intro hx
              exact of_decide_eq_true (List.mem_filter.mp hx).2
            · intro hx
              refine List.mem_filter.mpr ⟨?_, decide_eq_true hx⟩
              exact List.mem_toFinset.mp
                (runset_subset iosxrValid iosxrFailMsg tokens s (by decide) hres hx)
  · intro env tokens m henv h
    unfold junosMain at h
    cases hres : resolve_junos tokens with
    | error msg => rw [hres] at h; cases h
    | ok s =>
      rw [hres] at h
      replace h :
          (match junosLoop env (junosKeys s)
              [("gather_subset", .strs (junosKeys s))] with
            | none => Outcome.crash
            | some facts =>
              Outcome.facts (facts.map (fun p => ("ansible_net_" ++ p.1, p.2)))) =
            Outcome.facts m := h
      cases hloop : junosLoop env (junosKeys s)
          [("gather_subset", .strs (junosKeys s))] with
      | none => rw [hloop] at h; cases h
      | some facts =>
        rw [hloop] at h
        have hm := Outcome.facts.inj h
        constructor
        · intro p hp
          rw [← hm] at hp
          obtain ⟨q, _, hq⟩ := List.mem_map.mp hp
          exact ⟨q.1, q.2, hq.symm⟩
        · refine ⟨s, rfl, ?_, ?_⟩
          · have hkey : ("ansible_net_" ++ "gather_subset" : String) =
                "ansible_net_gather_subset" := by decide
            rw [← hm, ← hkey, getKey_map_net,
              junosLoop_ok_getKey env henv _ _ _ hloop]
            rfl
          · intro x
            constructor
            · intro hx
              exact of_decide_eq_true (List.mem_filter.mp hx).2
            · intro hx
              refine List.mem_filter.mpr ⟨?_, decide_eq_true hx⟩
              exact List.mem_toFinset.mp
                (runset_subset junosValid junosFailMsg tokens s (by decide) hres hx)

theorem claim_C7_witness :
    (∀ p ∈ [("ansible_net_gather_subset", FValue.strs ["default"])],
        ∃ k v, p = ("ansible_net_" ++ k, v)) ∧
      ∃ s, resolve_iosxr ["!all"] = .ok s ∧
        getKey [("ansible_net_gather_subset", FValue.strs ["default"])]
            "ansible_net_gather_subset" = some (.strs (iosxrKeys s)) ∧
        ∀ x, x ∈ iosxrKeys s ↔ x ∈ s :=
  claim_C7.1 cGoodIEnv cDevice ["!all"]
    [("ansible_net_gather_subset", FValue.strs ["default"])]
    (fun _ _ _ h p hp => by rw [← Option.some.inj h] at hp; cases hp)
    (by decide)

/-! ### Facts about `decode_os` -/

theorem bindE_ok {α β : Type} {x : Except PyError α} {g : α → Except PyError β}
    {b : β} (h : (x >>= g) = .ok b) : ∃ a, x = .ok a ∧ g a = .ok b := by
  cases x with
  | error e => simp [Bind.bind, Except.bind] at h
  | ok a => exact ⟨a, rfl, by simpa [Bind.bind, Except.bind] using h⟩

theorem listIdx_ok {α : Type} {l : List α} {i : Nat} {a : α}
    (h : listIdx l i = .ok a) : l.get? i = some a := by
  unfold listIdx at h
  cases hg : l.get? i with
  | none => rw [hg] at h; cases h
  | some b => rw [hg] at h; exact congrArg some (Except.ok.inj h)

theorem dictIdx_ok {α : Type} {l : List α} {i : Nat} {a : α}
    (h : dictIdx l i = .ok a) : l.get? i = some a := by
  unfold dictIdx at h
  cases hg : l.get? i with
  | none => rw [hg] at h; cases h
  | some b => rw [hg] at h; exact congrArg some (Except.ok.inj h)

theorem get?_lt {α : Type} {l : List α} {n : Nat} {a : α}
    (h : l.get? n = some a) : n < l.length := (List.get?_eq_some.mp h).1

theorem getD_of_get? {α : Type} {l : List α} {n : Nat} {a : α} (d : α)
    (h : l.get? n = some a) : l.getD n d = a := by
  rw [List.getD, List.get?_eq_getElem?] at *
  rw [h]; rfl

/-- Reading `tokens[i]` successfully pins down the words of comma-field `i`. -/
theorem tokens_at (s : String) {i : Nat} {ti : List String}
    (h : ((pySplitComma s).map pyWords).get? i = some ti) :
    pyWords ((pySplitComma s).getD i "") = ti ∧ i < (pySplitComma s).length := by
  rw [List.get?_map] at h
  obtain ⟨d, hd, hpd⟩ := Option.map_eq_some'.mp h
  constructor
  · rw [getD_of_get? "" hd]; exact hpd
  · exact get?_lt hd

/-- `decode_os` only returns normally on inputs satisfying the corrected
precondition: the failure-free path needs each of the listed indexings in
range, and in the Cisco case only the first `version`-matching field is ever
indexed (the loop `break`s). -/
theorem decode_os_ok_pre (s : String) (r : List (String × String))
    (h : decode_os s = .ok r) : correctedPreC10 s := by
  unfold decode_os at h
  dsimp only at h
  obtain ⟨t0, ht0, h⟩ := bindE_ok h
  obtain ⟨w0, hw0, h⟩ := bindE_ok h
  have hg0 := dictIdx_ok ht0
  have hv0 := listIdx_ok hw0
  obtain ⟨hpw0, _⟩ := tokens_at s hg0
  unfold correctedPreC10
  dsimp only
  rw [hpw0, getD_of_get? "" hv0]
  refine ⟨?_, ?_, ?_⟩
  · intro hnil
    rw [hnil] at hv0
    cases hv0
  · intro hcis
    rw [if_pos hcis] at h
    obtain ⟨w2, hw2, h⟩ := bindE_ok h
    obtain ⟨w1, hw1, h⟩ := bindE_ok h
    refine ⟨?_, ?_⟩
    · exact get?_lt (listIdx_ok hw2)
    · intro i hi
      cases hfi : (pySplitComma s).findIdx? matchesVersion with
      | none => rw [hfi] at hi; cases hi
      | some j =>
        rw [hfi] at hi h
        have hij : i = j := by
          cases hi with
          | head => rfl
          | tail _ hh => cases hh
        subst hij
        obtain ⟨ti, hti, h⟩ := bindE_ok h
        obtain ⟨ver, hver, h⟩ := bindE_ok h
        obtain ⟨hpwi, _⟩ := tokens_at s (dictIdx_ok hti)
        rw [hpwi]
        exact get?_lt (listIdx_ok hver)
  · intro hjun
    have hnc : lowerStr w0 ≠ "cisco" := by
      rw [hjun]; decide
    rw [if_neg hnc, if_pos hjun] at h
    obtain ⟨t2, ht2, h⟩ := bindE_ok h
    obtain ⟨w21, hw21, h⟩ := bindE_ok h
    obtain ⟨t1, ht1, h⟩ := bindE_ok h
    obtain ⟨w11, hw11, h⟩ := bindE_ok h
    obtain ⟨w22, hw22, h⟩ := bindE_ok h
    obtain ⟨t3, ht3, h⟩ := bindE_ok h
    obtain ⟨w32, hw32, h⟩ := bindE_ok h
    obtain ⟨w33, hw33, h⟩ := bindE_ok h
    obtain ⟨hpw1, _⟩ := tokens_at s (dictIdx_ok ht1)
    obtain ⟨hpw2, _⟩ := tokens_at s (dictIdx_ok ht2)
    obtain ⟨hpw3, hlt3⟩ := tokens_at s (dictIdx_ok ht3)
    refine ⟨hlt3, ?_, ?_, ?_⟩
    · rw [hpw1]; exact get?_lt (listIdx_ok hw11)
    · rw [hpw2]; exact get?_lt (listIdx_ok hw22)
    · rw [hpw3]; exact get?_lt (listIdx_ok hw33)

/-- C9: when the first comma-field has at least one word and that word is
neither `cisco` nor `juniper` (case-insensitively), `decode_os` returns the
five fixed keys with the vendor set to the first word (original case) and
every other value `'Unknown'`. -/
theorem claim_C9 (s first w : String) (ws : List String)
    (hf : (pySplitComma s).get? 0 = some first)
    (hw : pyWords first = w :: ws)
    (hc : lowerStr w ≠ "cisco") (hj : lowerStr w ≠ "juniper") :
    decode_os s = .ok (osResult w "Unknown" "Unknown" "Unknown" "Unknown") := by
  have ht : ((pySplitComma s).map pyWords).get? 0 = some (w :: ws) := by
    rw [List.get?_map, hf]
    simp [hw]
  have hd : dictIdx ((pySplitComma s).map pyWords) 0 = Except.ok (w :: ws) := by
    unfold dictIdx; rw [ht]
  unfold decode_os
  dsimp only
  rw [hd]
  simp [Bind.bind, Except.bind, listIdx, hc, hj]
  rfl

theorem claim_C9_witness :
    decode_os "Arista Networks EOS" =
      .ok (osResult "Arista" "Unknown" "Unknown" "Unknown" "Unknown") :=
  claim_C9 "Arista Networks EOS" "Arista Networks EOS" "Arista"
    ["Networks", "EOS"] (by decide) (by decide) (by decide) (by decide)

/-- C10 (amended): `decode_os` is not total; it returns without error only
under the corrected precondition (in the Cisco case only the *first* field
matching `version` must have ≥ 2 words, since the loop breaks there), and on
the single-field input `'Juniper Networks'` it raises an unhandled *KeyError*
(the comma-fields live in a dict keyed by position, and key `2` is absent),
not an IndexError. -/
theorem claim_C10 :
    (∀ (s : String) (r : List (String × String)),
        decode_os s = .ok r → correctedPreC10 s) ∧
      decode_os "Juniper Networks" = .error PyError.keyError :=
  ⟨decode_os_ok_pre, by decide⟩

theorem claim_C10_counterexample :
    decode_os "Juniper Networks" = .error PyError.keyError ∧
      PyError.keyError ≠ PyError.indexError ∧
      decode_os "Cisco IOS Software, Version 15.0, version" =
        .ok (osResult "Cisco" "Unknown" "ios" "15.0" "Unknown") ∧
      ¬ claimedPreC10 "Cisco IOS Software, Version 15.0, version" := by decide

theorem claim_C10_witness :
    correctedPreC10
      "Juniper Networks, Inc. mx960 router, kernel JUNOS 14.2R3, JUNOS 14.2R3 built 2015-01-23" :=
  claim_C10.1 _
    (osResult "Juniper" "mx960" "junos" "14.2R3" "built 2015-01-23") (by decide)

end S2P
